import Mathlib

set_option maxHeartbeats 1000000

/-!
Verification of the MCP adapter (`src/agents/mcp.py`): a shallow embedding of
the JSON-Schema sanitizer, the content normalizer, the tool-wrapping closures
and aggregator creation, with proofs of the specified properties.

Modelling conventions:
* Python dicts are association lists `List (String × Json)` in insertion
  order; `d[k] = v` keeps the position of an existing key and appends a new
  one, first match wins on lookup (Python dicts have unique keys, which the
  operations below agree with).
* A Python function that can raise is `Option`- or `Except`-valued; `none` /
  `.error` is a raised exception.  An exception value records the type name
  (`type(e).__name__`) and the message.
* Duck-typed attribute presence (`hasattr` / `getattr` with default) is an
  `Option` field.
-/

/-- JSON values, as produced by `json.loads` / the MCP wire format. -/
inductive Json : Type where
  | null : Json
  | bool : Bool → Json
  | num : Int → Json
  | str : String → Json
  | arr : List Json → Json
  | obj : List (String × Json) → Json

/-- Python `d[k]` / `"k" in d`: first (unique) matching key. -/
def dictLookup : List (String × Json) → String → Option Json
  | [], _ => none
  | (key, v) :: rest, k => if key = k then some v else dictLookup rest k

/-- Python `d[k] = v`: replace the value at an existing key in place,
otherwise append the binding at the end. -/
def dictSet : List (String × Json) → String → Json → List (String × Json)
  | [], k, v => [(k, v)]
  | (key, w) :: rest, k, v =>
      if key = k then (k, v) :: rest else (key, w) :: dictSet rest k v

/-- `UNSUPPORTED_SCHEMA_PROPERTIES` (mcp.py lines 232-236): JSON Schema
properties not supported by OpenAI functions. -/
def UNSUPPORTED_SCHEMA_PROPERTIES : List String :=
  ["minimum", "minLength", "maxLength", "pattern", "format", "minItems",
   "maxItems", "uniqueItems", "minProperties", "maxProperties", "multipleOf",
   "exclusiveMinimum", "exclusiveMaximum", "$schema", "examples", "default"]

/-- The post-processing step of `sanitize_json_schema_for_openai`
(mcp.py lines 272-281): if the result has `type == "object"` and a
`properties` key, overwrite `required` with the list of all property names
(when non-empty).  Python's `result.get("properties", {}).keys()` raises
`AttributeError` when the `properties` value is not a dict, modelled by
`none`. -/
def sanitizePost (result : List (String × Json)) :
    Option (List (String × Json)) :=
  match dictLookup result "type", dictLookup result "properties" with
  | some (Json.str "object"), some (Json.obj props) =>
      let property_names := props.map Prod.fst
      if property_names = [] then some result
      else some (dictSet result "required"
        (Json.arr (property_names.map Json.str)))
  | some (Json.str "object"), some _ => none
  | _, _ => some result

mutual

/-- `sanitize_json_schema_for_openai` (mcp.py lines 238-282).  A non-dict
input is returned unchanged; a dict is rebuilt key by key (dropping
unsupported keys, recursing into dict values and into dict elements of list
values) and then post-processed by `sanitizePost`. -/
def sanitize_json_schema_for_openai : Json → Option Json
  | Json.obj entries =>
      match sanitizeDict entries with
      | none => none
      | some result =>
          match sanitizePost result with
          | none => none
          | some result2 => some (Json.obj result2)
  | j => some j

/-- The `for key, value in schema.items()` loop of
`sanitize_json_schema_for_openai` (mcp.py lines 255-270). -/
def sanitizeDict : List (String × Json) → Option (List (String × Json))
  | [] => some []
  | (key, value) :: rest =>
      if key ∈ UNSUPPORTED_SCHEMA_PROPERTIES then sanitizeDict rest
      else
        match value with
        | Json.obj e =>
            match sanitize_json_schema_for_openai (Json.obj e),
                sanitizeDict rest with
            | some v, some r => some ((key, v) :: r)
            | _, _ => none
        | Json.arr items =>
            match sanitizeItems items, sanitizeDict rest with
            | some its, some r => some ((key, Json.arr its) :: r)
            | _, _ => none
        | v =>
            match sanitizeDict rest with
            | some r => some ((key, v) :: r)
            | none => none

/-- The list comprehension of `sanitize_json_schema_for_openai`
(mcp.py lines 265-268): dict elements are sanitized, any other element
(scalars, nested lists) is copied verbatim. -/
def sanitizeItems : List Json → Option (List Json)
  | [] => some []
  | Json.obj e :: rest =>
      match sanitize_json_schema_for_openai (Json.obj e),
          sanitizeItems rest with
      | some i2, some r => some (i2 :: r)
      | _, _ => none
  | item :: rest =>
      match sanitizeItems rest with
      | some r => some (item :: r)
      | none => none

end

mutual

/-- Key `k` occurs somewhere in the value, at any nesting depth (the notion of
occurrence used by the spec sentence "contains no occurrence of `k` at any
depth"). -/
def jsonHasKey : Json → String → Bool
  | Json.obj entries, k => entriesHasKey entries k
  | Json.arr items, k => itemsHasKey items k
  | _, _ => false

/-- Key occurrence inside a dict: as one of its own keys or inside one of its
values. -/
def entriesHasKey : List (String × Json) → String → Bool
  | [], _ => false
  | (key, v) :: rest, k => key == k || jsonHasKey v k || entriesHasKey rest k

/-- Key occurrence inside any element of a list. -/
def itemsHasKey : List Json → String → Bool
  | [], _ => false
  | i :: rest, k => jsonHasKey i k || itemsHasKey rest k

end

mutual

/-- The sub-documents that the recursion of `sanitize_json_schema_for_openai`
actually visits: the document itself, dict values, and dict elements of list
values.  Dicts nested inside a list of lists are copied verbatim by the
sanitizer and are not visited. -/
def visitedDocs : Json → List Json
  | Json.obj entries => Json.obj entries :: visitedVals entries
  | _ => []

/-- Visited sub-documents below the values of a dict. -/
def visitedVals : List (String × Json) → List Json
  | [] => []
  | (_, v) :: rest =>
      (match v with
       | Json.obj e => visitedDocs (Json.obj e)
       | Json.arr items => visitedElems items
       | _ => []) ++ visitedVals rest

/-- Visited sub-documents below the elements of a list value: only dict
elements are descended into. -/
def visitedElems : List Json → List Json
  | [] => []
  | i :: rest =>
      (match i with
       | Json.obj e => visitedDocs (Json.obj e)
       | _ => []) ++ visitedElems rest

end

mutual

/-- All dict sub-documents of a value at any nesting depth, including dicts
inside nested lists (the quantification domain of claims about "every
object-typed subschema"). -/
def subdocs : Json → List Json
  | Json.obj entries => Json.obj entries :: subdocsEntries entries
  | Json.arr items => subdocsItems items
  | _ => []

/-- All dict sub-documents below the values of a dict. -/
def subdocsEntries : List (String × Json) → List Json
  | [] => []
  | (_, v) :: rest => subdocs v ++ subdocsEntries rest

/-- All dict sub-documents below the elements of a list. -/
def subdocsItems : List Json → List Json
  | [] => []
  | i :: rest => subdocs i ++ subdocsItems rest

end

/-- The entries of a dict value (and `[]` for anything else). -/
def entriesOf : Json → List (String × Json)
  | Json.obj e => e
  | _ => []

/-!
Content normalization (`mcp_content_to_text`, mcp.py lines 151-203).

A content block is duck-typed in the source; it is modelled as a record of
optional attributes (`none` = the attribute is missing) plus the generic
`str(...)` rendering every Python object has.
-/

/-- The `resource` attribute of an embedded-resource block. -/
structure MCPResource where
  text? : Option String
  blob? : Option String
  mimeType? : Option String

/-- A (possibly malformed or partial) content block. -/
structure ContentItem where
  type? : Option String
  text? : Option String
  data? : Option String
  mimeType? : Option String
  resource? : Option MCPResource
  strRepr : String

/-- The argument of `mcp_content_to_text`: a single block or a list of
blocks. -/
inductive MCPInput where
  | single : ContentItem → MCPInput
  | list : List ContentItem → MCPInput

/-- The strings appended to `text_parts` for one list element
(mcp.py lines 165-182): zero strings for a resource block with neither text
nor blob, one string otherwise. -/
def itemParts (item : ContentItem) : List String :=
  if item.type? = some "text" ∧ item.text?.isSome then [item.text?.getD ""]
  else if item.type? = some "image" ∧ item.data?.isSome then
    ["[Image: " ++ item.mimeType?.getD "unknown type" ++ "]"]
  else
    match item.resource? with
    | some resource =>
        if resource.text?.isSome then [resource.text?.getD ""]
        else if resource.blob?.isSome then
          ["[Resource: " ++ resource.mimeType?.getD "unknown type" ++ "]"]
        else []
    | none => [item.strRepr]

/-- The `text_parts` list built by the loop of `mcp_content_to_text`
(mcp.py lines 163-182). -/
def collectParts : List ContentItem → List String
  | [] => []
  | item :: rest => itemParts item ++ collectParts rest

/-- `mcp_content_to_text` (mcp.py lines 151-203). -/
def mcp_content_to_text : MCPInput → String
  | MCPInput.list items =>
      let text_parts := collectParts items
      if text_parts = [] then "" else String.intercalate "\n" text_parts
  | MCPInput.single content =>
      if content.type? = some "text" ∧ content.text?.isSome then
        content.text?.getD ""
      else if content.type? = some "image" ∧ content.data?.isSome then
        "[Image: " ++ content.mimeType?.getD "unknown type" ++ "]"
      else
        match content.resource? with
        | some resource =>
            if resource.text?.isSome then resource.text?.getD ""
            else if resource.blob?.isSome then
              "[Resource: " ++ resource.mimeType?.getD "unknown type" ++ "]"
            else content.strRepr
        | none => content.strRepr

/-!
Tool wrapping (`mcp_tool_to_function_tool` and its nested factories,
mcp.py lines 284-387) and aggregator creation (`create_mcp_aggregator`,
mcp.py lines 81-122).

A raised Python exception is a `PyExc` (its type name and message); a
function that can raise is `Except PyExc`-valued.  The closures produced by
the factories capture the tool name by value at wrap time; the state of the
captured aggregator reference, the `json` module and the aggregator's
`call_tool` coroutine are read at invocation time and are therefore passed
to the invocation function as a `CallEnv`.
-/

/-- A raised Python exception: `type(e).__name__` and `str(e)`. -/
structure PyExc where
  kind : String
  msg : String
deriving DecidableEq

/-- The invocation-time state of an `MCPAggregator` reference. -/
structure Aggregator where
  initialized : Bool
  agent_name : String

/-- The object returned by `server_aggregator.call_tool` (duck-typed):
`isError` read through `getattr(result, "isError", False)`, `content`
through `hasattr`, plus the generic `str(result)` fallback. -/
structure CallToolResult where
  isError? : Option Bool
  content? : Option MCPInput
  strRepr : String

/-- `wrapper_fn` (mcp.py lines 296-324), with the captured tool name and the
invocation-time collaborators made explicit.  When the captured aggregator is
`None`, evaluating the f-string of the intended `RuntimeError` dereferences
`server_aggregator.agent_name` and raises `AttributeError` first. -/
def wrapper_fn (server_aggregator? : Option Aggregator)
    (call_tool : String → List (String × Json) → Except PyExc CallToolResult)
    (current_tool_name : String) (args : List (String × Json)) :
    Except PyExc String :=
  match server_aggregator? with
  | none =>
      Except.error
        ⟨"AttributeError",
         "\x27NoneType\x27 object has no attribute \x27agent_name\x27"⟩
  | some agg =>
      if agg.initialized = false then
        Except.error
          ⟨"RuntimeError",
           "MCP aggregator not initialized for agent " ++ agg.agent_name⟩
      else
        match call_tool current_tool_name args with
        | Except.error e => Except.error e
        | Except.ok result =>
            if result.isError?.getD false then
              let error_message :=
                match result.content? with
                | some content => mcp_content_to_text content
                | none => "Unknown error"
              Except.error
                ⟨"RuntimeError",
                 "Error calling MCP tool \x27" ++ current_tool_name ++
                   "\x27: " ++ error_message⟩
            else
              match result.content? with
              | some content => Except.ok (mcp_content_to_text content)
              | none => Except.ok result.strRepr

/-- `invoke_tool` as produced by `create_invoke_tool` (mcp.py lines
351-374): parse the argument JSON, run the wrapper, and turn any exception
into the textual result `Error (<kind>): <message>`. -/
def invoke_tool
    (json_loads : String → Except PyExc (List (String × Json)))
    (server_aggregator? : Option Aggregator)
    (call_tool : String → List (String × Json) → Except PyExc CallToolResult)
    (current_tool_name : String) (arguments_json : String) : String :=
  match json_loads arguments_json with
  | Except.error e => "Error (" ++ e.kind ++ "): " ++ e.msg
  | Except.ok args =>
      match wrapper_fn server_aggregator? call_tool current_tool_name args with
      | Except.error e => "Error (" ++ e.kind ++ "): " ++ e.msg
      | Except.ok result => result

/-- The invocation-time environment read by a bound closure: the `json`
module, the current state of the captured aggregator reference, and the
remote call it performs. -/
structure CallEnv where
  json_loads : String → Except PyExc (List (String × Json))
  server_aggregator? : Option Aggregator
  call_tool : String → List (String × Json) → Except PyExc CallToolResult

/-- An MCP tool descriptor (`mcp.types.Tool`): name, optional description,
and the `inputSchema` dict. -/
structure MCPToolDesc where
  name : String
  description? : Option String
  inputSchema? : Option (List (String × Json))

/-- The `FunctionTool` record handed to the agent runtime
(mcp.py lines 380-385). -/
structure FunctionTool where
  name : String
  description : String
  params_json_schema : Json
  on_invoke_tool : CallEnv → String → String

/-- The default `params_schema` used when the descriptor has no
`inputSchema` (mcp.py lines 336-340). -/
def default_params_schema : List (String × Json) :=
  [("type", Json.str "object"), ("properties", Json.obj []),
   ("required", Json.arr [])]

/-- `params_schema = getattr(mcp_tool, "inputSchema", {...})`
(mcp.py line 336). -/
def effective_params0 (mcp_tool : MCPToolDesc) : List (String × Json) :=
  match mcp_tool.inputSchema? with
  | some s => s
  | none => default_params_schema

/-- The schema dict after `params_schema["additionalProperties"] = False`
(mcp.py line 343). -/
def mutated_params (mcp_tool : MCPToolDesc) : List (String × Json) :=
  dictSet (effective_params0 mcp_tool) "additionalProperties" (Json.bool false)

/-- The caller's descriptor as it looks after the call: when it carried an
`inputSchema`, that very dict was mutated in place by line 343 (aliasing),
so the descriptor now holds the mutated dict; the default dict built for a
descriptor without a schema is fresh and the descriptor is untouched. -/
def mutated_tool (mcp_tool : MCPToolDesc) : MCPToolDesc :=
  match mcp_tool.inputSchema? with
  | some _ => { mcp_tool with inputSchema? := some (mutated_params mcp_tool) }
  | none => mcp_tool

/-- `tool.description or fallback` (mcp.py lines 332 and 382): Python `or`
takes the fallback for a missing *or empty* description. -/
def effective_description (mcp_tool : MCPToolDesc) : String :=
  match mcp_tool.description? with
  | some d => if d = "" then "MCP tool: " ++ mcp_tool.name else d
  | none => "MCP tool: " ++ mcp_tool.name

/-- `mcp_tool_to_function_tool` (mcp.py lines 284-387).  Returns the
produced tool (`none` when `sanitize_json_schema_for_openai` raises)
together with the caller's descriptor as it looks after the call. -/
def mcp_tool_to_function_tool (mcp_tool : MCPToolDesc) :
    Option FunctionTool × MCPToolDesc :=
  match sanitize_json_schema_for_openai (Json.obj (mutated_params mcp_tool)) with
  | none => (none, mutated_tool mcp_tool)
  | some sanitized =>
      (some
        { name := mcp_tool.name
          description := effective_description mcp_tool
          params_json_schema := sanitized
          on_invoke_tool := fun env arguments_json =>
            invoke_tool env.json_loads env.server_aggregator? env.call_tool
              mcp_tool.name arguments_json },
       mutated_tool mcp_tool)

/-- A server registry handle (opaque collaborator). -/
structure ServerRegistry where
  tag : String
deriving DecidableEq

/-- The run context attributes probed by `create_mcp_aggregator`. -/
structure RunContext where
  mcp_server_registry? : Option ServerRegistry

/-- The `Context(server_registry=...)` object built for the aggregator. -/
structure MCPContext where
  server_registry : ServerRegistry
deriving DecidableEq

/-- The `MCPAggregator(...)` constructor call of `create_mcp_aggregator`
(its keyword arguments; the construction itself is external). -/
structure CreatedAggregator where
  server_names : List String
  connection_persistence : Bool
  name : String
  context : MCPContext

/-- `create_mcp_aggregator` (mcp.py lines 81-122): fail fast on an empty
server list, then resolve the registry (argument first, then the context
attribute), then construct the aggregator. -/
def create_mcp_aggregator (run_context : RunContext) (name : String)
    (servers : List String) (server_registry? : Option ServerRegistry)
    (connection_persistence : Bool) : Except PyExc CreatedAggregator :=
  if servers = [] then
    Except.error
      ⟨"RuntimeError", "No MCP servers specified. No MCP aggregator created."⟩
  else
    match server_registry? with
    | some server_registry =>
        Except.ok ⟨servers, connection_persistence, name, ⟨server_registry⟩⟩
    | none =>
        match run_context.mcp_server_registry? with
        | some server_registry =>
            Except.ok ⟨servers, connection_persistence, name, ⟨server_registry⟩⟩
        | none =>
            Except.error
              ⟨"RuntimeError",
               "No server registry found in run context. Either specify it or set in context."⟩

/-!
Auxiliary predicates and concrete example values used by the theorems.
-/

/-- A value the sanitizer's per-value treatment leaves unchanged: a dict
value is a fixpoint of the sanitizer, a list value a fixpoint of the
element-wise pass, any scalar is untouched anyway. -/
def valueFixed : Json → Prop
  | Json.obj e => sanitize_json_schema_for_openai (Json.obj e) = some (Json.obj e)
  | Json.arr items => sanitizeItems items = some items
  | _ => True

/-- The output invariant of the sanitizer on one visited document: none of
its own keys is in the disallowed set, and if it is an object schema with a
non-empty `properties` dict then `required` lists exactly the property names
in order. -/
def docOk (u : Json) : Prop :=
  (∀ p ∈ entriesOf u, p.1 ∉ UNSUPPORTED_SCHEMA_PROPERTIES) ∧
  (∀ props, dictLookup (entriesOf u) "type" = some (Json.str "object") →
     dictLookup (entriesOf u) "properties" = some (Json.obj props) →
     props ≠ [] →
     dictLookup (entriesOf u) "required" =
       some (Json.arr ((props.map Prod.fst).map Json.str)))

/-- Modelled from the spec: claim C5 describes the list case of the
normalizer as "normalize each element independently by the single-block
rules, then join the non-empty results with a newline separator"; this
definition follows those words (to be compared with the source's list
branch). -/
def spec_list_join (items : List ContentItem) : String :=
  String.intercalate "\n"
    ((items.map (fun i => mcp_content_to_text (MCPInput.single i))).filter
      (fun s => !(s == "")))

/-- An element of the list branch that contributes nothing to `text_parts`:
it reaches the embedded-resource branch and the resource has neither inline
text nor a blob. -/
def resourceNeither (i : ContentItem) : Bool :=
  if i.type? = some "text" ∧ i.text?.isSome then false
  else if i.type? = some "image" ∧ i.data?.isSome then false
  else
    match i.resource? with
    | some resource =>
        if resource.text?.isSome then false
        else if resource.blob?.isSome then false
        else true
    | none => false

/-- The per-element contributions of the list branch, described through the
single-block normalizer: an element in the resource-with-neither case
contributes nothing, every other element contributes its single-block
normalization (even when that is the empty string). -/
def specParts : List ContentItem → List String
  | [] => []
  | i :: rest =>
      (if resourceNeither i then []
       else [mcp_content_to_text (MCPInput.single i)]) ++ specParts rest

/-- A single block that one of the three recognition branches of
`mcp_content_to_text` accepts (and that therefore does not fall through to
`str(content)`). -/
def recognizedSingle (c : ContentItem) : Bool :=
  if c.type? = some "text" ∧ c.text?.isSome then true
  else if c.type? = some "image" ∧ c.data?.isSome then true
  else
    match c.resource? with
    | some resource => resource.text?.isSome || resource.blob?.isSome
    | none => false

/-- A well-formed text content block with the given text. -/
def textItem (s : String) : ContentItem :=
  ⟨some "text", some s, none, none, none, "TextContent"⟩

/-- A block with no recognizable attribute at all (every field missing). -/
def unknownItem : ContentItem :=
  ⟨none, none, none, none, none, "<ContentBlock>"⟩

/-- Counterexample document for C2: a disallowed key inside a list of
lists.  `{"a": [[{"minimum": 1}]]}`. -/
def exDeepMin : Json :=
  Json.obj [("a", Json.arr [Json.arr [Json.obj [("minimum", Json.num 1)]]])]

/-- An object schema with a stale `required` list, used nested inside a list
of lists: `{"type": "object", "properties": {"x": 1}, "required": []}`. -/
def exInnerObj : Json :=
  Json.obj [("type", Json.str "object"),
    ("properties", Json.obj [("x", Json.num 1)]),
    ("required", Json.arr [])]

/-- Counterexample document for C3: `{"a": [[exInnerObj]]}`. -/
def exDeepReq : Json := Json.obj [("a", Json.arr [Json.arr [exInnerObj]])]

/-- Counterexample list for C5: a text block with empty text followed by a
text block with text "a". -/
def exParts : List ContentItem := [textItem "", textItem "a"]

/-- A stand-in for `json.loads` that parses the empty-object text to the
empty keyword mapping. -/
def loads_empty : String → Except PyExc (List (String × Json)) :=
  fun _ => Except.ok []

/-- An instrumented remote call: it succeeds and reports the tool name it
was called with as its text content, so a theorem can observe which name a
closure passes to `call_tool`. -/
def probe_call_tool :
    String → List (String × Json) → Except PyExc CallToolResult :=
  fun name _ =>
    Except.ok ⟨some false, some (MCPInput.single (textItem name)), "result"⟩

/-- An invocation environment with an initialized aggregator and the
instrumented remote call. -/
def probeEnv : CallEnv :=
  ⟨loads_empty, some ⟨true, "agent"⟩, probe_call_tool⟩

/-- A concrete declared input schema for the "alpha" tool. -/
def alphaSchema : List (String × Json) :=
  [("type", Json.str "object"),
   ("properties", Json.obj [("x", Json.obj [("type", Json.str "string")])])]

/-- A concrete tool descriptor ("alpha") with an input schema. -/
def toolAlpha : MCPToolDesc := ⟨"alpha", some "first tool", some alphaSchema⟩

/-- A concrete tool descriptor ("beta") without an input schema. -/
def toolBeta : MCPToolDesc := ⟨"beta", some "Beta tool", none⟩

/-- The sanitizer's output on `exInnerObj`: `required` overwritten with the
full property-name list. -/
def exReqOut : Json :=
  Json.obj [("type", Json.str "object"),
    ("properties", Json.obj [("x", Json.num 1)]),
    ("required", Json.arr [Json.str "x"])]

/-- The `FunctionTool` produced by wrapping `toolBeta` (no declared schema,
so the default one is mutated and sanitized). -/
def ftBeta : FunctionTool :=
  { name := "beta"
    description := "Beta tool"
    params_json_schema :=
      Json.obj [("type", Json.str "object"), ("properties", Json.obj []),
        ("required", Json.arr []), ("additionalProperties", Json.bool false)]
    on_invoke_tool := fun env arguments_json =>
      invoke_tool env.json_loads env.server_aggregator? env.call_tool
        "beta" arguments_json }

/-- A `json.loads` stand-in that raises `JSONDecodeError` on any input. -/
def loads_fail : String → Except PyExc (List (String × Json)) :=
  fun _ => Except.error ⟨"JSONDecodeError", "Expecting value"⟩

/-- An invocation environment whose argument parsing fails. -/
def envParseFail : CallEnv :=
  ⟨loads_fail, some ⟨true, "agent"⟩, probe_call_tool⟩

/-- A remote call that raises `TimeoutError`. -/
def call_tool_raises :
    String → List (String × Json) → Except PyExc CallToolResult :=
  fun _ _ => Except.error ⟨"TimeoutError", "deadline exceeded"⟩

/-- An invocation environment whose remote call raises. -/
def envCallFail : CallEnv :=
  ⟨loads_empty, some ⟨true, "agent"⟩, call_tool_raises⟩

/-!
Supporting lemmas about the dict operations.
-/

theorem dictLookup_set_eq (d : List (String × Json)) (k : String) (v : Json) :
    dictLookup (dictSet d k v) k = some v := by
  induction d with
  | nil => simp [dictSet, dictLookup]
  | cons p rest ih =>
      obtain ⟨key, w⟩ := p
      by_cases h : key = k
      · simp [dictSet, h, dictLookup]
      · simp [dictSet, h, dictLookup, ih]

theorem dictLookup_set_ne (d : List (String × Json)) (k k2 : String) (v : Json)
    (h : k ≠ k2) : dictLookup (dictSet d k v) k2 = dictLookup d k2 := by
  induction d with
  | nil => simp [dictSet, dictLookup, h]
  | cons p rest ih =>
      obtain ⟨key, w⟩ := p
      by_cases hk : key = k
      · subst hk
        simp [dictSet, dictLookup, h]
      · simp [dictSet, hk, dictLookup, ih]

theorem dictSet_set_same (d : List (String × Json)) (k : String) (v : Json) :
    dictSet (dictSet d k v) k v = dictSet d k v := by
  induction d with
  | nil => simp [dictSet]
  | cons p rest ih =>
      obtain ⟨key, w⟩ := p
      by_cases hk : key = k
      · simp [dictSet, hk]
      · simp [dictSet, hk, ih]

theorem mem_dictSet (d : List (String × Json)) (k : String) (v : Json)
    (p : String × Json) (h : p ∈ dictSet d k v) : p = (k, v) ∨ p ∈ d := by
  induction d with
  | nil => simpa [dictSet] using h
  | cons q rest ih =>
      obtain ⟨key, w⟩ := q
      by_cases hk : key = k
      · simp only [dictSet, if_pos hk] at h
        rcases List.mem_cons.mp h with h1 | h2
        · exact Or.inl h1
        · exact Or.inr (List.mem_cons.mpr (Or.inr h2))
      · simp only [dictSet, if_neg hk] at h
        rcases List.mem_cons.mp h with h1 | h2
        · exact Or.inr (List.mem_cons.mpr (Or.inl h1))
        · rcases ih h2 with h3 | h4
          · exact Or.inl h3
          · exact Or.inr (List.mem_cons.mpr (Or.inr h4))


/-!
Construction and inversion lemmas for the sanitizer's equations.
-/

theorem sanitizeDict_cons_skip {key : String} {value : Json}
    {rest : List (String × Json)}
    (hkey : key ∈ UNSUPPORTED_SCHEMA_PROPERTIES) :
    sanitizeDict ((key, value) :: rest) = sanitizeDict rest := by
  rw [sanitizeDict.eq_def]
  simp [hkey]

theorem sanitizeDict_cons_obj {key : String} {e : List (String × Json)}
    {rest r : List (String × Json)} {v : Json}
    (hkey : key ∉ UNSUPPORTED_SCHEMA_PROPERTIES)
    (h1 : sanitize_json_schema_for_openai (Json.obj e) = some v)
    (h2 : sanitizeDict rest = some r) :
    sanitizeDict ((key, Json.obj e) :: rest) = some ((key, v) :: r) := by
  rw [sanitizeDict.eq_def]
  simp [hkey, h1, h2]

theorem sanitizeDict_cons_arr {key : String} {items its : List Json}
    {rest r : List (String × Json)}
    (hkey : key ∉ UNSUPPORTED_SCHEMA_PROPERTIES)
    (h1 : sanitizeItems items = some its)
    (h2 : sanitizeDict rest = some r) :
    sanitizeDict ((key, Json.arr items) :: rest) =
      some ((key, Json.arr its) :: r) := by
  rw [sanitizeDict.eq_def]
  simp [hkey, h1, h2]

theorem sanitizeDict_cons_other {key : String} {value : Json}
    {rest r : List (String × Json)}
    (hkey : key ∉ UNSUPPORTED_SCHEMA_PROPERTIES)
    (hobj : ∀ e, value ≠ Json.obj e) (harr : ∀ items, value ≠ Json.arr items)
    (h2 : sanitizeDict rest = some r) :
    sanitizeDict ((key, value) :: rest) = some ((key, value) :: r) := by
  rw [sanitizeDict.eq_def]
  cases value with
  | obj e => exact absurd rfl (hobj e)
  | arr items => exact absurd rfl (harr items)
  | null => simp [hkey, h2]
  | bool b => simp [hkey, h2]
  | num n => simp [hkey, h2]
  | str s => simp [hkey, h2]

theorem sanitizeDict_cons_obj_inv {key : String} {e : List (String × Json)}
    {rest r : List (String × Json)}
    (hkey : key ∉ UNSUPPORTED_SCHEMA_PROPERTIES)
    (h : sanitizeDict ((key, Json.obj e) :: rest) = some r) :
    ∃ v r2, r = (key, v) :: r2 ∧
      sanitize_json_schema_for_openai (Json.obj e) = some v ∧
      sanitizeDict rest = some r2 := by
  rw [sanitizeDict.eq_def] at h
  simp only [if_neg hkey] at h
  cases hs : sanitize_json_schema_for_openai (Json.obj e) with
  | none => rw [hs] at h; simp at h
  | some v =>
      cases hd : sanitizeDict rest with
      | none => rw [hs, hd] at h; simp at h
      | some r2 =>
          rw [hs, hd] at h
          simp only [Option.some.injEq] at h
          exact ⟨v, r2, h.symm, rfl, rfl⟩

theorem sanitizeDict_cons_arr_inv {key : String} {items : List Json}
    {rest r : List (String × Json)}
    (hkey : key ∉ UNSUPPORTED_SCHEMA_PROPERTIES)
    (h : sanitizeDict ((key, Json.arr items) :: rest) = some r) :
    ∃ its r2, r = (key, Json.arr its) :: r2 ∧
      sanitizeItems items = some its ∧ sanitizeDict rest = some r2 := by
  rw [sanitizeDict.eq_def] at h
  simp only [if_neg hkey] at h
  cases hs : sanitizeItems items with
  | none => rw [hs] at h; simp at h
  | some its =>
      cases hd : sanitizeDict rest with
      | none => rw [hs, hd] at h; simp at h
      | some r2 =>
          rw [hs, hd] at h
          simp only [Option.some.injEq] at h
          exact ⟨its, r2, h.symm, rfl, rfl⟩

theorem sanitizeDict_cons_other_inv {key : String} {value : Json}
    {rest r : List (String × Json)}
    (hkey : key ∉ UNSUPPORTED_SCHEMA_PROPERTIES)
    (hobj : ∀ e, value ≠ Json.obj e) (harr : ∀ items, value ≠ Json.arr items)
    (h : sanitizeDict ((key, value) :: rest) = some r) :
    ∃ r2, r = (key, value) :: r2 ∧ sanitizeDict rest = some r2 := by
  rw [sanitizeDict.eq_def] at h
  simp only [if_neg hkey] at h
  cases value with
  | obj e => exact absurd rfl (hobj e)
  | arr items => exact absurd rfl (harr items)
  | null =>
      cases hd : sanitizeDict rest with
      | none => rw [hd] at h; simp at h
      | some r2 =>
          rw [hd] at h
          simp only [Option.some.injEq] at h
          exact ⟨r2, h.symm, rfl⟩
  | bool b =>
      cases hd : sanitizeDict rest with
      | none => rw [hd] at h; simp at h
      | some r2 =>
          rw [hd] at h
          simp only [Option.some.injEq] at h
          exact ⟨r2, h.symm, rfl⟩
  | num n =>
      cases hd : sanitizeDict rest with
      | none => rw [hd] at h; simp at h
      | some r2 =>
          rw [hd] at h
          simp only [Option.some.injEq] at h
          exact ⟨r2, h.symm, rfl⟩
  | str s =>
      cases hd : sanitizeDict rest with
      | none => rw [hd] at h; simp at h
      | some r2 =>
          rw [hd] at h
          simp only [Option.some.injEq] at h
          exact ⟨r2, h.symm, rfl⟩

theorem sanitizeItems_cons_obj {e : List (String × Json)} {rest r : List Json}
    {i2 : Json}
    (h1 : sanitize_json_schema_for_openai (Json.obj e) = some i2)
    (h2 : sanitizeItems rest = some r) :
    sanitizeItems (Json.obj e :: rest) = some (i2 :: r) := by
  rw [sanitizeItems.eq_def]
  simp [h1, h2]

theorem sanitizeItems_cons_other {item : Json} {rest r : List Json}
    (hobj : ∀ e, item ≠ Json.obj e) (h2 : sanitizeItems rest = some r) :
    sanitizeItems (item :: rest) = some (item :: r) := by
  rw [sanitizeItems.eq_def]
  cases item with
  | obj e => exact absurd rfl (hobj e)
  | null => simp [h2]
  | bool b => simp [h2]
  | num n => simp [h2]
  | str s => simp [h2]
  | arr items => simp [h2]

theorem sanitizeItems_cons_obj_inv {e : List (String × Json)}
    {rest r : List Json}
    (h : sanitizeItems (Json.obj e :: rest) = some r) :
    ∃ i2 r2, r = i2 :: r2 ∧
      sanitize_json_schema_for_openai (Json.obj e) = some i2 ∧
      sanitizeItems rest = some r2 := by
  rw [sanitizeItems.eq_def] at h
  have h2 : (match sanitize_json_schema_for_openai (Json.obj e),
        sanitizeItems rest with
      | some i2, some r => some (i2 :: r)
      | _, _ => none) = some r := h
  cases hs : sanitize_json_schema_for_openai (Json.obj e) with
  | none => rw [hs] at h2; simp at h2
  | some i2 =>
      cases hd : sanitizeItems rest with
      | none => rw [hs, hd] at h2; simp at h2
      | some r2 =>
          rw [hs, hd] at h2
          simp only [Option.some.injEq] at h2
          exact ⟨i2, r2, h2.symm, rfl, rfl⟩

theorem sanitizeItems_cons_notobj {item : Json} {rest r : List Json}
    (hobj : ∀ e, item ≠ Json.obj e)
    (h : sanitizeItems (item :: rest) = some r) :
    ∃ r2, r = item :: r2 ∧ sanitizeItems rest = some r2 := by
  cases item with
  | obj e => exact absurd rfl (hobj e)
  | null =>
      rw [sanitizeItems.eq_def] at h
      have h2 : (match sanitizeItems rest with
          | some r => some (Json.null :: r)
          | none => none) = some r := h
      cases hd : sanitizeItems rest with
      | none => rw [hd] at h2; simp at h2
      | some r2 =>
          rw [hd] at h2
          simp only [Option.some.injEq] at h2
          exact ⟨r2, h2.symm, rfl⟩
  | bool b =>
      rw [sanitizeItems.eq_def] at h
      have h2 : (match sanitizeItems rest with
          | some r => some (Json.bool b :: r)
          | none => none) = some r := h
      cases hd : sanitizeItems rest with
      | none => rw [hd] at h2; simp at h2
      | some r2 =>
          rw [hd] at h2
          simp only [Option.some.injEq] at h2
          exact ⟨r2, h2.symm, rfl⟩
  | num n =>
      rw [sanitizeItems.eq_def] at h
      have h2 : (match sanitizeItems rest with
          | some r => some (Json.num n :: r)
          | none => none) = some r := h
      cases hd : sanitizeItems rest with
      | none => rw [hd] at h2; simp at h2
      | some r2 =>
          rw [hd] at h2
          simp only [Option.some.injEq] at h2
          exact ⟨r2, h2.symm, rfl⟩
  | str s =>
      rw [sanitizeItems.eq_def] at h
      have h2 : (match sanitizeItems rest with
          | some r => some (Json.str s :: r)
          | none => none) = some r := h
      cases hd : sanitizeItems rest with
      | none => rw [hd] at h2; simp at h2
      | some r2 =>
          rw [hd] at h2
          simp only [Option.some.injEq] at h2
          exact ⟨r2, h2.symm, rfl⟩
  | arr items =>
      rw [sanitizeItems.eq_def] at h
      have h2 : (match sanitizeItems rest with
          | some r => some (Json.arr items :: r)
          | none => none) = some r := h
      cases hd : sanitizeItems rest with
      | none => rw [hd] at h2; simp at h2
      | some r2 =>
          rw [hd] at h2
          simp only [Option.some.injEq] at h2
          exact ⟨r2, h2.symm, rfl⟩

theorem sanitize_obj_eq {entries r r2 : List (String × Json)}
    (h1 : sanitizeDict entries = some r) (h2 : sanitizePost r = some r2) :
    sanitize_json_schema_for_openai (Json.obj entries) = some (Json.obj r2) := by
  rw [sanitize_json_schema_for_openai.eq_def]
  show (match sanitizeDict entries with
    | none => none
    | some result =>
        match sanitizePost result with
        | none => none
        | some result2 => some (Json.obj result2)) = some (Json.obj r2)
  rw [h1]
  show (match sanitizePost r with
    | none => none
    | some result2 => some (Json.obj result2)) = some (Json.obj r2)
  rw [h2]

theorem sanitize_obj_inv {entries : List (String × Json)} {t : Json}
    (h : sanitize_json_schema_for_openai (Json.obj entries) = some t) :
    ∃ r r2, sanitizeDict entries = some r ∧ sanitizePost r = some r2 ∧
      t = Json.obj r2 := by
  rw [sanitize_json_schema_for_openai.eq_def] at h
  have h2 : (match sanitizeDict entries with
    | none => none
    | some result =>
        match sanitizePost result with
        | none => none
        | some result2 => some (Json.obj result2)) = some t := h
  cases hd : sanitizeDict entries with
  | none => rw [hd] at h2; simp at h2
  | some r =>
      rw [hd] at h2
      have h3 : (match sanitizePost r with
        | none => none
        | some result2 => some (Json.obj result2)) = some t := h2
      cases hp : sanitizePost r with
      | none => rw [hp] at h3; simp at h3
      | some r2 =>
          rw [hp] at h3
          simp only [Option.some.injEq] at h3
          exact ⟨r, r2, rfl, hp, h3.symm⟩

theorem sanitize_not_obj {j : Json} (h : ∀ e, j ≠ Json.obj e) :
    sanitize_json_schema_for_openai j = some j := by
  rw [sanitize_json_schema_for_openai.eq_def]
  cases j with
  | obj e => exact absurd rfl (h e)
  | null => rfl
  | bool b => rfl
  | num n => rfl
  | str s => rfl
  | arr items => rfl

theorem sanitizePost_full {r : List (String × Json)}
    {props : List (String × Json)}
    (htype : dictLookup r "type" = some (Json.str "object"))
    (hprops : dictLookup r "properties" = some (Json.obj props))
    (hne : props.map Prod.fst ≠ []) :
    sanitizePost r = some (dictSet r "required"
      (Json.arr ((props.map Prod.fst).map Json.str))) := by
  unfold sanitizePost
  rw [htype, hprops]
  simp [hne]

theorem sanitizePost_cases {r r2 : List (String × Json)}
    (h : sanitizePost r = some r2) :
    (∃ props, dictLookup r "type" = some (Json.str "object") ∧
        dictLookup r "properties" = some (Json.obj props) ∧
        props.map Prod.fst ≠ [] ∧
        r2 = dictSet r "required"
          (Json.arr ((props.map Prod.fst).map Json.str))) ∨
    (r2 = r ∧ ∀ props, dictLookup r "type" = some (Json.str "object") →
        dictLookup r "properties" = some (Json.obj props) →
        props.map Prod.fst = []) := by
  unfold sanitizePost at h
  split at h
  · next props heqType heqProps =>
      by_cases hne : props.map Prod.fst = []
      · simp only [hne, if_pos] at h
        simp only [Option.some.injEq] at h
        refine Or.inr ⟨h.symm, ?_⟩
        intro props2 _ hprops2
        rw [heqProps] at hprops2
        simp only [Option.some.injEq, Json.obj.injEq] at hprops2
        rw [← hprops2]
        exact hne
      · simp only [hne, if_neg, ite_false] at h
        simp only [Option.some.injEq] at h
        exact Or.inl ⟨props, heqType, heqProps, hne, h.symm⟩
  · exact absurd h (by simp)
  · next x exc1 exc2 =>
      simp only [Option.some.injEq] at h
      refine Or.inr ⟨h.symm, ?_⟩
      intro props htypeEq hpropsEq
      exact absurd (exc1 props htypeEq hpropsEq) (by simp)

theorem sanitizeDict_length : ∀ (l r : List (String × Json)),
    sanitizeDict l = some r → r.length ≤ l.length := by
  intro l
  induction l with
  | nil =>
      intro r h
      rw [sanitizeDict.eq_def] at h
      simp only [Option.some.injEq] at h
      subst h
      simp
  | cons p rest ih =>
      obtain ⟨key, value⟩ := p
      intro r h
      by_cases hkey : key ∈ UNSUPPORTED_SCHEMA_PROPERTIES
      · rw [sanitizeDict_cons_skip hkey] at h
        exact le_trans (ih r h) (Nat.le_succ _)
      · cases value with
        | obj e =>
            obtain ⟨v, r2, hr, _, hd⟩ := sanitizeDict_cons_obj_inv hkey h
            subst hr
            simpa using ih r2 hd
        | arr items =>
            obtain ⟨its, r2, hr, _, hd⟩ := sanitizeDict_cons_arr_inv hkey h
            subst hr
            simpa using ih r2 hd
        | null =>
            obtain ⟨r2, hr, hd⟩ :=
              sanitizeDict_cons_other_inv hkey (by simp) (by simp) h
            subst hr
            simpa using ih r2 hd
        | bool b =>
            obtain ⟨r2, hr, hd⟩ :=
              sanitizeDict_cons_other_inv hkey (by simp) (by simp) h
            subst hr
            simpa using ih r2 hd
        | num n =>
            obtain ⟨r2, hr, hd⟩ :=
              sanitizeDict_cons_other_inv hkey (by simp) (by simp) h
            subst hr
            simpa using ih r2 hd
        | str s =>
            obtain ⟨r2, hr, hd⟩ :=
              sanitizeDict_cons_other_inv hkey (by simp) (by simp) h
            subst hr
            simpa using ih r2 hd

theorem sanitizeDict_keys : ∀ (l r : List (String × Json)),
    sanitizeDict l = some r →
    ∀ p ∈ r, p.1 ∉ UNSUPPORTED_SCHEMA_PROPERTIES := by
  intro l
  induction l with
  | nil =>
      intro r h
      rw [sanitizeDict.eq_def] at h
      simp only [Option.some.injEq] at h
      subst h
      simp
  | cons p rest ih =>
      obtain ⟨key, value⟩ := p
      intro r h q hq
      by_cases hkey : key ∈ UNSUPPORTED_SCHEMA_PROPERTIES
      · rw [sanitizeDict_cons_skip hkey] at h
        exact ih r h q hq
      · cases value with
        | obj e =>
            obtain ⟨v, r2, hr, _, hd⟩ := sanitizeDict_cons_obj_inv hkey h
            subst hr
            rcases List.mem_cons.mp hq with h1 | h2
            · subst h1; exact hkey
            · exact ih r2 hd q h2
        | arr items =>
            obtain ⟨its, r2, hr, _, hd⟩ := sanitizeDict_cons_arr_inv hkey h
            subst hr
            rcases List.mem_cons.mp hq with h1 | h2
            · subst h1; exact hkey
            · exact ih r2 hd q h2
        | null =>
            obtain ⟨r2, hr, hd⟩ :=
              sanitizeDict_cons_other_inv hkey (by simp) (by simp) h
            subst hr
            rcases List.mem_cons.mp hq with h1 | h2
            · subst h1; exact hkey
            · exact ih r2 hd q h2
        | bool b =>
            obtain ⟨r2, hr, hd⟩ :=
              sanitizeDict_cons_other_inv hkey (by simp) (by simp) h
            subst hr
            rcases List.mem_cons.mp hq with h1 | h2
            · subst h1; exact hkey
            · exact ih r2 hd q h2
        | num n =>
            obtain ⟨r2, hr, hd⟩ :=
              sanitizeDict_cons_other_inv hkey (by simp) (by simp) h
            subst hr
            rcases List.mem_cons.mp hq with h1 | h2
            · subst h1; exact hkey
            · exact ih r2 hd q h2
        | str s =>
            obtain ⟨r2, hr, hd⟩ :=
              sanitizeDict_cons_other_inv hkey (by simp) (by simp) h
            subst hr
            rcases List.mem_cons.mp hq with h1 | h2
            · subst h1; exact hkey
            · exact ih r2 hd q h2

theorem sanitizeItems_nil : sanitizeItems [] = some [] := by
  rw [sanitizeItems.eq_def]

theorem sanitizeDict_nil : sanitizeDict [] = some [] := by
  rw [sanitizeDict.eq_def]

theorem sanitizeItems_str (l : List String) :
    sanitizeItems (l.map Json.str) = some (l.map Json.str) := by
  induction l with
  | nil => simpa using sanitizeItems_nil
  | cons s rest ih =>
      simpa using @sanitizeItems_cons_other (Json.str s) (rest.map Json.str)
        (rest.map Json.str) (by simp) ih

theorem visitedVals_nil : visitedVals [] = [] := by
  rw [visitedVals.eq_def]

theorem visitedElems_nil : visitedElems [] = [] := by
  rw [visitedElems.eq_def]

theorem visitedVals_cons (k : String) (v : Json)
    (rest : List (String × Json)) :
    visitedVals ((k, v) :: rest) =
      (match v with
       | Json.obj e => visitedDocs (Json.obj e)
       | Json.arr items => visitedElems items
       | _ => []) ++ visitedVals rest := by
  rw [visitedVals.eq_def]

theorem visitedElems_cons (i : Json) (rest : List Json) :
    visitedElems (i :: rest) =
      (match i with
       | Json.obj e => visitedDocs (Json.obj e)
       | _ => []) ++ visitedElems rest := by
  rw [visitedElems.eq_def]

theorem visitedDocs_obj (entries : List (String × Json)) :
    visitedDocs (Json.obj entries) = Json.obj entries :: visitedVals entries := by
  rw [visitedDocs.eq_def]

theorem visitedDocs_not_obj {j : Json} (h : ∀ e, j ≠ Json.obj e) :
    visitedDocs j = [] := by
  rw [visitedDocs.eq_def]
  cases j with
  | obj e => exact absurd rfl (h e)
  | null => rfl
  | bool b => rfl
  | num n => rfl
  | str s => rfl
  | arr items => rfl

theorem visitedElems_str (l : List String) :
    visitedElems (l.map Json.str) = [] := by
  induction l with
  | nil => simpa using visitedElems_nil
  | cons s rest ih =>
      rw [List.map_cons, visitedElems_cons]
      simpa using ih

theorem visitedVals_dictSet : ∀ (d : List (String × Json)) (k : String)
    (v : Json) (u : Json), u ∈ visitedVals (dictSet d k v) →
    u ∈ visitedVals d ∨ u ∈ visitedVals [(k, v)] := by
  intro d k v
  induction d with
  | nil =>
      intro u h
      right
      simpa [dictSet] using h
  | cons p rest ih =>
      obtain ⟨key, w⟩ := p
      intro u h
      by_cases hk : key = k
      · rw [show dictSet ((key, w) :: rest) k v = (k, v) :: rest from by
          simp [dictSet, hk]] at h
        rw [visitedVals_cons] at h
        rcases List.mem_append.mp h with h1 | h2
        · right
          rw [visitedVals_cons]
          exact List.mem_append.mpr (Or.inl h1)
        · left
          rw [visitedVals_cons]
          exact List.mem_append.mpr (Or.inr h2)
      · rw [show dictSet ((key, w) :: rest) k v =
            (key, w) :: dictSet rest k v from by simp [dictSet, hk]] at h
        rw [visitedVals_cons] at h
        rcases List.mem_append.mp h with h1 | h2
        · left
          rw [visitedVals_cons]
          exact List.mem_append.mpr (Or.inl h1)
        · rcases ih u h2 with h3 | h4
          · left
            rw [visitedVals_cons]
            exact List.mem_append.mpr (Or.inr h3)
          · right
            exact h4

theorem valueFixed_arr_str (l : List String) :
    valueFixed (Json.arr (l.map Json.str)) := by
  show sanitizeItems (l.map Json.str) = some (l.map Json.str)
  exact sanitizeItems_str l

theorem sanitizeDict_fix_cons {key : String} {w : Json}
    {rest : List (String × Json)}
    (h : sanitizeDict ((key, w) :: rest) = some ((key, w) :: rest)) :
    key ∉ UNSUPPORTED_SCHEMA_PROPERTIES ∧ valueFixed w ∧
      sanitizeDict rest = some rest := by
  by_cases hkey : key ∈ UNSUPPORTED_SCHEMA_PROPERTIES
  · rw [sanitizeDict_cons_skip hkey] at h
    have hlen := sanitizeDict_length _ _ h
    simp at hlen
  · refine ⟨hkey, ?_, ?_⟩
    · cases w with
      | obj e =>
          obtain ⟨v2, r2, heq, hs, hdr⟩ := sanitizeDict_cons_obj_inv hkey h
          simp only [List.cons.injEq, Prod.mk.injEq, true_and] at heq
          show sanitize_json_schema_for_openai (Json.obj e) = some (Json.obj e)
          rw [hs, heq.1]
      | arr items =>
          obtain ⟨its, r2, heq, hits, hdr⟩ := sanitizeDict_cons_arr_inv hkey h
          simp only [List.cons.injEq, Prod.mk.injEq, true_and,
            Json.arr.injEq] at heq
          show sanitizeItems items = some items
          rw [← heq.1] at hits
          exact hits
      | null => trivial
      | bool b => trivial
      | num n => trivial
      | str s => trivial
    · cases w with
      | obj e =>
          obtain ⟨v2, r2, heq, hs, hdr⟩ := sanitizeDict_cons_obj_inv hkey h
          simp only [List.cons.injEq, Prod.mk.injEq, true_and] at heq
          rw [← heq.2] at hdr
          exact hdr
      | arr items =>
          obtain ⟨its, r2, heq, hits, hdr⟩ := sanitizeDict_cons_arr_inv hkey h
          simp only [List.cons.injEq, Prod.mk.injEq, true_and,
            Json.arr.injEq] at heq
          rw [← heq.2] at hdr
          exact hdr
      | null =>
          obtain ⟨r2, heq, hdr⟩ :=
            sanitizeDict_cons_other_inv hkey (by simp) (by simp) h
          simp only [List.cons.injEq, true_and] at heq
          rw [← heq] at hdr
          exact hdr
      | bool b =>
          obtain ⟨r2, heq, hdr⟩ :=
            sanitizeDict_cons_other_inv hkey (by simp) (by simp) h
          simp only [List.cons.injEq, true_and] at heq
          rw [← heq] at hdr
          exact hdr
      | num n =>
          obtain ⟨r2, heq, hdr⟩ :=
            sanitizeDict_cons_other_inv hkey (by simp) (by simp) h
          simp only [List.cons.injEq, true_and] at heq
          rw [← heq] at hdr
          exact hdr
      | str s =>
          obtain ⟨r2, heq, hdr⟩ :=
            sanitizeDict_cons_other_inv hkey (by simp) (by simp) h
          simp only [List.cons.injEq, true_and] at heq
          rw [← heq] at hdr
          exact hdr

theorem sanitizeDict_set_fix : ∀ (d : List (String × Json)) (k : String)
    (v : Json), sanitizeDict d = some d →
    k ∉ UNSUPPORTED_SCHEMA_PROPERTIES → valueFixed v →
    sanitizeDict (dictSet d k v) = some (dictSet d k v) := by
  intro d k v
  induction d with
  | nil =>
      intro _ hk hv
      show sanitizeDict [(k, v)] = some [(k, v)]
      cases v with
      | obj e => exact sanitizeDict_cons_obj hk hv sanitizeDict_nil
      | arr items => exact sanitizeDict_cons_arr hk hv sanitizeDict_nil
      | null =>
          exact sanitizeDict_cons_other hk (by simp) (by simp) sanitizeDict_nil
      | bool b =>
          exact sanitizeDict_cons_other hk (by simp) (by simp) sanitizeDict_nil
      | num n =>
          exact sanitizeDict_cons_other hk (by simp) (by simp) sanitizeDict_nil
      | str s =>
          exact sanitizeDict_cons_other hk (by simp) (by simp) sanitizeDict_nil
  | cons p rest ih =>
      obtain ⟨key, w⟩ := p
      intro hd hk hv
      obtain ⟨hkey2, hwfix, hrest⟩ := sanitizeDict_fix_cons hd
      by_cases hkk : key = k
      · rw [show dictSet ((key, w) :: rest) k v = (k, v) :: rest from by
          simp [dictSet, hkk]]
        cases v with
        | obj e => exact sanitizeDict_cons_obj hk hv hrest
        | arr items => exact sanitizeDict_cons_arr hk hv hrest
        | null => exact sanitizeDict_cons_other hk (by simp) (by simp) hrest
        | bool b => exact sanitizeDict_cons_other hk (by simp) (by simp) hrest
        | num n => exact sanitizeDict_cons_other hk (by simp) (by simp) hrest
        | str s => exact sanitizeDict_cons_other hk (by simp) (by simp) hrest
      · rw [show dictSet ((key, w) :: rest) k v =
            (key, w) :: dictSet rest k v from by simp [dictSet, hkk]]
        have ih2 := ih hrest hk hv
        cases w with
        | obj e => exact sanitizeDict_cons_obj hkey2 hwfix ih2
        | arr items => exact sanitizeDict_cons_arr hkey2 hwfix ih2
        | null =>
            exact sanitizeDict_cons_other hkey2 (by simp) (by simp) ih2
        | bool b =>
            exact sanitizeDict_cons_other hkey2 (by simp) (by simp) ih2
        | num n =>
            exact sanitizeDict_cons_other hkey2 (by simp) (by simp) ih2
        | str s =>
            exact sanitizeDict_cons_other hkey2 (by simp) (by simp) ih2

theorem sanitize_strong : ∀ n : Nat,
    (∀ j : Json, sizeOf j ≤ n → ∀ t,
       sanitize_json_schema_for_openai j = some t →
       sanitize_json_schema_for_openai t = some t ∧
         ∀ u ∈ visitedDocs t, docOk u) ∧
    (∀ l : List (String × Json), sizeOf l ≤ n → ∀ r, sanitizeDict l = some r →
       sanitizeDict r = some r ∧ ∀ u ∈ visitedVals r, docOk u) ∧
    (∀ l : List Json, sizeOf l ≤ n → ∀ r, sanitizeItems l = some r →
       sanitizeItems r = some r ∧ ∀ u ∈ visitedElems r, docOk u) := by
  intro n
  induction n with
  | zero =>
      refine ⟨?_, ?_, ?_⟩
      · intro j hj
        exfalso
        cases j <;> simp at hj
      · intro l hl
        exfalso
        cases l with
        | nil => simp at hl
        | cons p rest => simp at hl
      · intro l hl
        exfalso
        cases l with
        | nil => simp at hl
        | cons i rest => simp at hl
  | succ n ih =>
      obtain ⟨ih1, ih2, ih3⟩ := ih
      refine ⟨?_, ?_, ?_⟩
      · -- documents
        intro j hj t ht
        cases j with
        | obj entries =>
            obtain ⟨r, r2, hd, hp, ht2⟩ := sanitize_obj_inv ht
            subst ht2
            have hsize : sizeOf entries ≤ n := by simp at hj; omega
            obtain ⟨hidem, hinv⟩ := ih2 entries hsize r hd
            rcases sanitizePost_cases hp with
              ⟨props, htype, hprops, hne, hr2⟩ | ⟨hr2, hempty⟩
            · subst hr2
              have hsetfix := sanitizeDict_set_fix r "required"
                (Json.arr ((props.map Prod.fst).map Json.str)) hidem
                (by decide) (valueFixed_arr_str _)
              have htype2 : dictLookup (dictSet r "required"
                  (Json.arr ((props.map Prod.fst).map Json.str))) "type" =
                  some (Json.str "object") := by
                rw [dictLookup_set_ne _ _ _ _ (by decide)]
                exact htype
              have hprops2 : dictLookup (dictSet r "required"
                  (Json.arr ((props.map Prod.fst).map Json.str)))
                  "properties" = some (Json.obj props) := by
                rw [dictLookup_set_ne _ _ _ _ (by decide)]
                exact hprops
              have hpost2 : sanitizePost (dictSet r "required"
                  (Json.arr ((props.map Prod.fst).map Json.str))) =
                  some (dictSet r "required"
                    (Json.arr ((props.map Prod.fst).map Json.str))) := by
                rw [sanitizePost_full htype2 hprops2 hne, dictSet_set_same]
              constructor
              · exact sanitize_obj_eq hsetfix hpost2
              · intro u hu
                rw [visitedDocs_obj] at hu
                rcases List.mem_cons.mp hu with h1 | h2
                · subst h1
                  refine ⟨?_, ?_⟩
                  · intro p hp2
                    rcases mem_dictSet _ _ _ _ hp2 with h3 | h4
                    · rw [h3]
                      show "required" ∉ UNSUPPORTED_SCHEMA_PROPERTIES
                      decide
                    · exact sanitizeDict_keys entries r hd p h4
                  · intro props2 htype3 hprops3 hne2
                    have hpp : props2 = props := by
                      have h5 : dictLookup (dictSet r "required"
                          (Json.arr ((props.map Prod.fst).map Json.str)))
                          "properties" = some (Json.obj props2) := hprops3
                      rw [hprops2] at h5
                      simp only [Option.some.injEq, Json.obj.injEq] at h5
                      exact h5.symm
                    subst hpp
                    show dictLookup (dictSet r "required"
                      (Json.arr ((props2.map Prod.fst).map Json.str)))
                      "required" = _
                    rw [dictLookup_set_eq]
                · rcases visitedVals_dictSet _ _ _ _ h2 with h3 | h4
                  · exact hinv u h3
                  · exfalso
                    rw [visitedVals_cons, visitedVals_nil,
                      List.append_nil] at h4
                    have h5 : u ∈ visitedElems
                        ((props.map Prod.fst).map Json.str) := h4
                    rw [visitedElems_str] at h5
                    simp at h5
            · subst hr2
              constructor
              · exact sanitize_obj_eq hidem hp
              · intro u hu
                rw [visitedDocs_obj] at hu
                rcases List.mem_cons.mp hu with h1 | h2
                · subst h1
                  refine ⟨?_, ?_⟩
                  · intro p hp2
                    exact sanitizeDict_keys entries _ hd p hp2
                  · intro props2 htype3 hprops3 hne2
                    exfalso
                    have h5 := hempty props2 htype3 hprops3
                    rw [List.map_eq_nil_iff] at h5
                    exact hne2 h5
                · exact hinv u h2
        | null =>
            rw [sanitize_not_obj (by simp)] at ht
            simp only [Option.some.injEq] at ht
            subst ht
            refine ⟨sanitize_not_obj (by simp), ?_⟩
            intro u hu
            rw [visitedDocs_not_obj (by simp)] at hu
            simp at hu
        | bool b =>
            rw [sanitize_not_obj (by simp)] at ht
            simp only [Option.some.injEq] at ht
            subst ht
            refine ⟨sanitize_not_obj (by simp), ?_⟩
            intro u hu
            rw [visitedDocs_not_obj (by simp)] at hu
            simp at hu
        | num m =>
            rw [sanitize_not_obj (by simp)] at ht
            simp only [Option.some.injEq] at ht
            subst ht
            refine ⟨sanitize_not_obj (by simp), ?_⟩
            intro u hu
            rw [visitedDocs_not_obj (by simp)] at hu
            simp at hu
        | str s =>
            rw [sanitize_not_obj (by simp)] at ht
            simp only [Option.some.injEq] at ht
            subst ht
            refine ⟨sanitize_not_obj (by simp), ?_⟩
            intro u hu
            rw [visitedDocs_not_obj (by simp)] at hu
            simp at hu
        | arr items =>
            rw [sanitize_not_obj (by simp)] at ht
            simp only [Option.some.injEq] at ht
            subst ht
            refine ⟨sanitize_not_obj (by simp), ?_⟩
            intro u hu
            rw [visitedDocs_not_obj (by simp)] at hu
            simp at hu
      · -- dict entries
        intro l hl r h
        cases l with
        | nil =>
            rw [sanitizeDict_nil] at h
            simp only [Option.some.injEq] at h
            subst h
            refine ⟨sanitizeDict_nil, ?_⟩
            intro u hu
            rw [visitedVals_nil] at hu
            simp at hu
        | cons p rest =>
            obtain ⟨key, value⟩ := p
            have hsizerest : sizeOf rest ≤ n := by simp at hl; omega
            by_cases hkey : key ∈ UNSUPPORTED_SCHEMA_PROPERTIES
            · rw [sanitizeDict_cons_skip hkey] at h
              exact ih2 rest hsizerest r h
            · cases value with
              | obj e =>
                  obtain ⟨v2, r2, hr, hs, hdr⟩ := sanitizeDict_cons_obj_inv hkey h
                  subst hr
                  have hsz : sizeOf (Json.obj e) ≤ n := by
                    simp at hl ⊢
                    omega
                  obtain ⟨hvidem, hvinv⟩ := ih1 (Json.obj e) hsz v2 hs
                  obtain ⟨hridem, hrinv⟩ := ih2 rest hsizerest r2 hdr
                  obtain ⟨rr, rr2, _, _, hv2shape⟩ := sanitize_obj_inv hs
                  subst hv2shape
                  constructor
                  · exact sanitizeDict_cons_obj hkey hvidem hridem
                  · intro u hu
                    rw [visitedVals_cons] at hu
                    rcases List.mem_append.mp hu with h1 | h2
                    · exact hvinv u h1
                    · exact hrinv u h2
              | arr items =>
                  obtain ⟨its, r2, hr, hits, hdr⟩ := sanitizeDict_cons_arr_inv hkey h
                  subst hr
                  have hsz : sizeOf items ≤ n := by
                    simp at hl
                    omega
                  obtain ⟨hitsidem, hitsinv⟩ := ih3 items hsz its hits
                  obtain ⟨hridem, hrinv⟩ := ih2 rest hsizerest r2 hdr
                  constructor
                  · exact sanitizeDict_cons_arr hkey hitsidem hridem
                  · intro u hu
                    rw [visitedVals_cons] at hu
                    rcases List.mem_append.mp hu with h1 | h2
                    · exact hitsinv u h1
                    · exact hrinv u h2
              | null =>
                  obtain ⟨r2, hr, hdr⟩ :=
                    sanitizeDict_cons_other_inv hkey (by simp) (by simp) h
                  subst hr
                  obtain ⟨hridem, hrinv⟩ := ih2 rest hsizerest r2 hdr
                  constructor
                  · exact sanitizeDict_cons_other hkey (by simp) (by simp) hridem
                  · intro u hu
                    rw [visitedVals_cons] at hu
                    rcases List.mem_append.mp hu with h1 | h2
                    · simp at h1
                    · exact hrinv u h2
              | bool b =>
                  obtain ⟨r2, hr, hdr⟩ :=
                    sanitizeDict_cons_other_inv hkey (by simp) (by simp) h
                  subst hr
                  obtain ⟨hridem, hrinv⟩ := ih2 rest hsizerest r2 hdr
                  constructor
                  · exact sanitizeDict_cons_other hkey (by simp) (by simp) hridem
                  · intro u hu
                    rw [visitedVals_cons] at hu
                    rcases List.mem_append.mp hu with h1 | h2
                    · simp at h1
                    · exact hrinv u h2
              | num m =>
                  obtain ⟨r2, hr, hdr⟩ :=
                    sanitizeDict_cons_other_inv hkey (by simp) (by simp) h
                  subst hr
                  obtain ⟨hridem, hrinv⟩ := ih2 rest hsizerest r2 hdr
                  constructor
                  · exact sanitizeDict_cons_other hkey (by simp) (by simp) hridem
                  · intro u hu
                    rw [visitedVals_cons] at hu
                    rcases List.mem_append.mp hu with h1 | h2
                    · simp at h1
                    · exact hrinv u h2
              | str s =>
                  obtain ⟨r2, hr, hdr⟩ :=
                    sanitizeDict_cons_other_inv hkey (by simp) (by simp) h
                  subst hr
                  obtain ⟨hridem, hrinv⟩ := ih2 rest hsizerest r2 hdr
                  constructor
                  · exact sanitizeDict_cons_other hkey (by simp) (by simp) hridem
                  · intro u hu
                    rw [visitedVals_cons] at hu
                    rcases List.mem_append.mp hu with h1 | h2
                    · simp at h1
                    · exact hrinv u h2
      · -- list elements
        intro l hl r h
        cases l with
        | nil =>
            rw [sanitizeItems_nil] at h
            simp only [Option.some.injEq] at h
            subst h
            refine ⟨sanitizeItems_nil, ?_⟩
            intro u hu
            rw [visitedElems_nil] at hu
            simp at hu
        | cons item rest =>
            have hsizerest : sizeOf rest ≤ n := by simp at hl; omega
            cases item with
            | obj e =>
                obtain ⟨i2, r2, hr, hs, hdr⟩ := sanitizeItems_cons_obj_inv h
                subst hr
                have hsz : sizeOf (Json.obj e) ≤ n := by
                  simp at hl ⊢
                  omega
                obtain ⟨hvidem, hvinv⟩ := ih1 (Json.obj e) hsz i2 hs
                obtain ⟨hridem, hrinv⟩ := ih3 rest hsizerest r2 hdr
                obtain ⟨rr, rr2, _, _, hi2shape⟩ := sanitize_obj_inv hs
                subst hi2shape
                constructor
                · exact sanitizeItems_cons_obj hvidem hridem
                · intro u hu
                  rw [visitedElems_cons] at hu
                  rcases List.mem_append.mp hu with h1 | h2
                  · exact hvinv u h1
                  · exact hrinv u h2
            | null =>
                obtain ⟨r2, hr, hdr⟩ := sanitizeItems_cons_notobj (by simp) h
                subst hr
                obtain ⟨hridem, hrinv⟩ := ih3 rest hsizerest r2 hdr
                constructor
                · exact sanitizeItems_cons_other (by simp) hridem
                · intro u hu
                  rw [visitedElems_cons] at hu
                  rcases List.mem_append.mp hu with h1 | h2
                  · simp at h1
                  · exact hrinv u h2
            | bool b =>
                obtain ⟨r2, hr, hdr⟩ := sanitizeItems_cons_notobj (by simp) h
                subst hr
                obtain ⟨hridem, hrinv⟩ := ih3 rest hsizerest r2 hdr
                constructor
                · exact sanitizeItems_cons_other (by simp) hridem
                · intro u hu
                  rw [visitedElems_cons] at hu
                  rcases List.mem_append.mp hu with h1 | h2
                  · simp at h1
                  · exact hrinv u h2
            | num m =>
                obtain ⟨r2, hr, hdr⟩ := sanitizeItems_cons_notobj (by simp) h
                subst hr
                obtain ⟨hridem, hrinv⟩ := ih3 rest hsizerest r2 hdr
                constructor
                · exact sanitizeItems_cons_other (by simp) hridem
                · intro u hu
                  rw [visitedElems_cons] at hu
                  rcases List.mem_append.mp hu with h1 | h2
                  · simp at h1
                  · exact hrinv u h2
            | str s =>
                obtain ⟨r2, hr, hdr⟩ := sanitizeItems_cons_notobj (by simp) h
                subst hr
                obtain ⟨hridem, hrinv⟩ := ih3 rest hsizerest r2 hdr
                constructor
                · exact sanitizeItems_cons_other (by simp) hridem
                · intro u hu
                  rw [visitedElems_cons] at hu
                  rcases List.mem_append.mp hu with h1 | h2
                  · simp at h1
                  · exact hrinv u h2
            | arr items2 =>
                obtain ⟨r2, hr, hdr⟩ := sanitizeItems_cons_notobj (by simp) h
                subst hr
                obtain ⟨hridem, hrinv⟩ := ih3 rest hsizerest r2 hdr
                constructor
                · exact sanitizeItems_cons_other (by simp) hridem
                · intro u hu
                  rw [visitedElems_cons] at hu
                  rcases List.mem_append.mp hu with h1 | h2
                  · simp at h1
                  · exact hrinv u h2

/-!
Claim theorems.
-/

/-- C4: the schema sanitizer is idempotent: running
`sanitize_json_schema_for_openai` on its own output reproduces that output
exactly (stated through `Option.bind`, so a document on which the sanitizer
raises relates to a second raised exception).  Purity holds by construction
of the embedding: the function reads nothing but its argument. -/
theorem sanitize_idempotent (s : Json) :
    Option.bind (sanitize_json_schema_for_openai s)
      sanitize_json_schema_for_openai = sanitize_json_schema_for_openai s := by
  cases hs : sanitize_json_schema_for_openai s with
  | none => rfl
  | some t =>
      have hidem := ((sanitize_strong (sizeOf s)).1 s le_rfl t hs).1
      show sanitize_json_schema_for_openai t = some t
      exact hidem

/-- C2 counterexample: `"minimum"` is in the disallowed set and occurs in
`{"a": [[{"minimum": 1}]]}`; the sanitizer returns the document unchanged
(the dict sits inside a list of lists, which the recursion copies
verbatim), so the disallowed key survives in the output at depth. -/
theorem sanitize_deep_disallowed_counterexample :
    "minimum" ∈ UNSUPPORTED_SCHEMA_PROPERTIES ∧
    sanitize_json_schema_for_openai exDeepMin = some exDeepMin ∧
    jsonHasKey exDeepMin "minimum" = true := by
  refine ⟨by decide, ?_, ?_⟩
  · simp [exDeepMin, sanitize_json_schema_for_openai, sanitizeDict,
      sanitizeItems, sanitizePost, dictLookup, UNSUPPORTED_SCHEMA_PROPERTIES]
  · simp [exDeepMin, jsonHasKey, entriesHasKey, itemsHasKey]

/-- C2 (amended): for every disallowed key, the sanitizer's output contains
no occurrence of it among the keys of any sub-document the recursion
visits — the root, dict values and dict elements of list values,
recursively.  (Dicts nested inside a list of lists are copied verbatim and
are exempt, as the counterexample shows.) -/
theorem sanitize_removes_disallowed_visited (s t : Json)
    (h : sanitize_json_schema_for_openai s = some t) :
    ∀ u ∈ visitedDocs t, ∀ p ∈ entriesOf u,
      p.1 ∉ UNSUPPORTED_SCHEMA_PROPERTIES := by
  intro u hu p hp
  exact (((sanitize_strong (sizeOf s)).1 s le_rfl t h).2 u hu).1 p hp

theorem sanitize_removes_disallowed_visited_witness :
    ("x", Json.str "y").1 ∉ UNSUPPORTED_SCHEMA_PROPERTIES :=
  sanitize_removes_disallowed_visited
    (Json.obj [("minimum", Json.num 1), ("x", Json.str "y")])
    (Json.obj [("x", Json.str "y")])
    (by simp [sanitize_json_schema_for_openai, sanitizeDict, sanitizePost,
      dictLookup, UNSUPPORTED_SCHEMA_PROPERTIES])
    (Json.obj [("x", Json.str "y")])
    (by rw [visitedDocs_obj]; exact List.mem_cons_self _ _)
    ("x", Json.str "y")
    (by simp [entriesOf])

/-- C3 counterexample: the object schema `exInnerObj` (type "object",
non-empty properties, stale `required == []`) sits inside a list of lists
in `exDeepReq`; the sanitizer returns the document unchanged, so the output
has an object-typed subschema whose `required` is not the property list. -/
theorem sanitize_required_deep_counterexample :
    sanitize_json_schema_for_openai exDeepReq = some exDeepReq ∧
    exInnerObj ∈ subdocs exDeepReq ∧
    dictLookup (entriesOf exInnerObj) "type" = some (Json.str "object") ∧
    dictLookup (entriesOf exInnerObj) "properties" =
      some (Json.obj [("x", Json.num 1)]) ∧
    dictLookup (entriesOf exInnerObj) "required" = some (Json.arr []) ∧
    Json.arr [] ≠
      Json.arr (([("x", Json.num 1)].map Prod.fst).map Json.str) := by
  refine ⟨?_, ?_, ?_, ?_, ?_, by simp⟩
  · simp [exDeepReq, exInnerObj, sanitize_json_schema_for_openai,
      sanitizeDict, sanitizeItems, sanitizePost, dictLookup,
      UNSUPPORTED_SCHEMA_PROPERTIES]
  · simp [exDeepReq, exInnerObj, subdocs, subdocsEntries, subdocsItems]
  · simp [exInnerObj, entriesOf, dictLookup]
  · simp [exInnerObj, entriesOf, dictLookup]
  · simp [exInnerObj, entriesOf, dictLookup]

/-- C3 (amended): in the sanitizer's output, every sub-document the
recursion visits that has `type == "object"` and a non-empty `properties`
dict has `required` equal to the full ordered list of property names (in
property insertion order), overwriting any `required` present in the
input.  Sub-documents nested inside lists of lists are copied verbatim and
are exempt, as the counterexample shows. -/
theorem sanitize_required_completion_visited (s t : Json)
    (h : sanitize_json_schema_for_openai s = some t) :
    ∀ u ∈ visitedDocs t, ∀ props,
      dictLookup (entriesOf u) "type" = some (Json.str "object") →
      dictLookup (entriesOf u) "properties" = some (Json.obj props) →
      props ≠ [] →
      dictLookup (entriesOf u) "required" =
        some (Json.arr ((props.map Prod.fst).map Json.str)) := by
  intro u hu props h1 h2 h3
  exact (((sanitize_strong (sizeOf s)).1 s le_rfl t h).2 u hu).2 props h1 h2 h3

theorem sanitize_required_completion_visited_witness :
    dictLookup (entriesOf exReqOut) "required" =
      some (Json.arr (([("x", Json.num 1)].map Prod.fst).map Json.str)) :=
  sanitize_required_completion_visited exInnerObj exReqOut
    (by simp [exInnerObj, exReqOut, sanitize_json_schema_for_openai,
      sanitizeDict, sanitizeItems, sanitizePost, dictLookup, dictSet,
      UNSUPPORTED_SCHEMA_PROPERTIES])
    exReqOut
    (by rw [exReqOut, visitedDocs_obj]; exact List.mem_cons_self _ _)
    [("x", Json.num 1)]
    (by simp [exReqOut, entriesOf, dictLookup])
    (by simp [exReqOut, entriesOf, dictLookup])
    (by simp)

theorem itemParts_eq_single (i : ContentItem) :
    itemParts i = (if resourceNeither i then []
      else [mcp_content_to_text (MCPInput.single i)]) := by
  by_cases h1 : i.type? = some "text" ∧ i.text?.isSome
  · simp [itemParts, resourceNeither, mcp_content_to_text, h1]
  · by_cases h2 : i.type? = some "image" ∧ i.data?.isSome
    · simp [itemParts, resourceNeither, mcp_content_to_text, h1, h2]
    · cases hr : i.resource? with
      | none =>
          simp [itemParts, resourceNeither, mcp_content_to_text, h1, h2, hr]
      | some resource =>
          by_cases h3 : resource.text?.isSome
          · simp [itemParts, resourceNeither, mcp_content_to_text,
              h1, h2, hr, h3]
          · by_cases h4 : resource.blob?.isSome
            · simp [itemParts, resourceNeither, mcp_content_to_text,
                h1, h2, hr, h3, h4]
            · simp [itemParts, resourceNeither, mcp_content_to_text,
                h1, h2, hr, h3, h4]

theorem collectParts_eq_specParts (items : List ContentItem) :
    collectParts items = specParts items := by
  induction items with
  | nil => rfl
  | cons i rest ih =>
      show itemParts i ++ collectParts rest = _
      rw [ih, itemParts_eq_single]
      rfl

/-- C5 counterexample: on `[{type: text, text: ""}, {type: text, text:
"a"}]` the list branch collects both parts (the empty string included) and
joins them, yielding `"\na"`, while the claim's "non-empty per-element
results joined" description yields `"a"`. -/
theorem mcp_content_list_counterexample :
    mcp_content_to_text (MCPInput.list exParts) ≠ spec_list_join exParts := by
  decide

/-- C5 (amended): the list branch equals the per-element single-block
normalizations collected in order and joined with a newline, where (a) an
element reaching the embedded-resource branch whose resource has neither
text nor blob contributes nothing, and (b) every other element contributes
its single-block normalization even when that is the empty string; a
sequence with no contributions yields the empty string. -/
theorem mcp_content_list_parts_join (items : List ContentItem) :
    mcp_content_to_text (MCPInput.list items) =
      (if specParts items = [] then ""
       else String.intercalate "\n" (specParts items)) := by
  show (if collectParts items = [] then ""
    else String.intercalate "\n" (collectParts items)) = _
  rw [collectParts_eq_specParts]

/-- C6: the content normalizer is total — it returns a string on every
input, including malformed or partial blocks (missing type tag, text, data,
mime type, or a resource with neither text nor blob) — and every single
block that no recognition branch accepts falls through to its generic
`str(...)` representation. -/
theorem mcp_content_total_and_fallback :
    (∀ x : MCPInput, ∃ s : String, mcp_content_to_text x = s) ∧
    (∀ c : ContentItem, recognizedSingle c = false →
      mcp_content_to_text (MCPInput.single c) = c.strRepr) := by
  constructor
  · intro x
    exact ⟨_, rfl⟩
  · intro c hrec
    by_cases h1 : c.type? = some "text" ∧ c.text?.isSome
    · rw [show recognizedSingle c = true from by
        simp [recognizedSingle, h1]] at hrec
      exact absurd hrec (by simp)
    · by_cases h2 : c.type? = some "image" ∧ c.data?.isSome
      · rw [show recognizedSingle c = true from by
          simp [recognizedSingle, h1, h2]] at hrec
        exact absurd hrec (by simp)
      · cases hr : c.resource? with
        | none => simp [mcp_content_to_text, h1, h2, hr]
        | some resource =>
            simp [recognizedSingle, h1, h2, hr] at hrec
            obtain ⟨ha, hb⟩ := hrec
            simp [mcp_content_to_text, h1, h2, hr, ha, hb]

theorem mcp_content_total_and_fallback_witness :
    mcp_content_to_text (MCPInput.single unknownItem) = "<ContentBlock>" :=
  mcp_content_total_and_fallback.2 unknownItem (by decide)

theorem mcp_tool_to_function_tool_on_invoke {desc : MCPToolDesc}
    {ft : FunctionTool} {desc2 : MCPToolDesc}
    (hw : mcp_tool_to_function_tool desc = (some ft, desc2)) :
    ft.on_invoke_tool = fun env arguments_json =>
      invoke_tool env.json_loads env.server_aggregator? env.call_tool
        desc.name arguments_json := by
  unfold mcp_tool_to_function_tool at hw
  cases hs : sanitize_json_schema_for_openai
      (Json.obj (mutated_params desc)) with
  | none =>
      rw [hs] at hw
      simp at hw
  | some sanitized =>
      rw [hs] at hw
      simp only [Prod.mk.injEq, Option.some.injEq] at hw
      rw [← hw.1]

theorem mcp_tool_to_function_tool_snd (desc : MCPToolDesc) :
    (mcp_tool_to_function_tool desc).2 = mutated_tool desc := by
  unfold mcp_tool_to_function_tool
  cases hs : sanitize_json_schema_for_openai
      (Json.obj (mutated_params desc)) with
  | none => rfl
  | some sanitized => rfl

theorem mcp_tool_to_function_tool_schema {desc : MCPToolDesc}
    {ft : FunctionTool} {desc2 : MCPToolDesc}
    (hw : mcp_tool_to_function_tool desc = (some ft, desc2)) :
    sanitize_json_schema_for_openai (Json.obj (mutated_params desc)) =
      some ft.params_json_schema := by
  unfold mcp_tool_to_function_tool at hw
  cases hs : sanitize_json_schema_for_openai
      (Json.obj (mutated_params desc)) with
  | none =>
      rw [hs] at hw
      simp at hw
  | some sanitized =>
      rw [hs] at hw
      simp only [Prod.mk.injEq, Option.some.injEq] at hw
      rw [← hw.1]

/-- C1: for every bound tool the wrapper factory produces, the invocation
closure catches every exception arising from argument parsing, the remote
call, the remote-error branch or result handling, and returns the string
`Error (<kind>): <message>`; on success it returns the wrapper's string.
Being `String`-valued, the closure never propagates an exception. -/
theorem invoke_tool_catches_exceptions
    (desc : MCPToolDesc) (ft : FunctionTool) (desc2 : MCPToolDesc)
    (hw : mcp_tool_to_function_tool desc = (some ft, desc2))
    (env : CallEnv) (arguments_json : String) :
    (∀ e, env.json_loads arguments_json = Except.error e →
      ft.on_invoke_tool env arguments_json =
        "Error (" ++ e.kind ++ "): " ++ e.msg) ∧
    (∀ args e, env.json_loads arguments_json = Except.ok args →
      wrapper_fn env.server_aggregator? env.call_tool desc.name args =
        Except.error e →
      ft.on_invoke_tool env arguments_json =
        "Error (" ++ e.kind ++ "): " ++ e.msg) ∧
    (∀ args res, env.json_loads arguments_json = Except.ok args →
      wrapper_fn env.server_aggregator? env.call_tool desc.name args =
        Except.ok res →
      ft.on_invoke_tool env arguments_json = res) := by
  rw [mcp_tool_to_function_tool_on_invoke hw]
  refine ⟨?_, ?_, ?_⟩
  · intro e he
    simp [invoke_tool, he]
  · intro args e hargs hwrap
    simp [invoke_tool, hargs, hwrap]
  · intro args res hargs hwrap
    simp [invoke_tool, hargs, hwrap]

theorem ftBeta_wrap : mcp_tool_to_function_tool toolBeta =
    (some ftBeta, toolBeta) := by
  have hs : sanitize_json_schema_for_openai
      (Json.obj (mutated_params toolBeta)) =
      some ftBeta.params_json_schema := by
    simp [mutated_params, effective_params0, default_params_schema, toolBeta,
      dictSet, ftBeta, sanitize_json_schema_for_openai, sanitizeDict,
      sanitizeItems, sanitizePost, dictLookup, UNSUPPORTED_SCHEMA_PROPERTIES]
  unfold mcp_tool_to_function_tool
  rw [hs]
  unfold mutated_tool
  simp only [toolBeta]
  rfl

theorem invoke_tool_catches_exceptions_witness :
    ftBeta.on_invoke_tool envParseFail "not json" =
      "Error (JSONDecodeError): Expecting value" :=
  (invoke_tool_catches_exceptions toolBeta ftBeta toolBeta ftBeta_wrap
    envParseFail "not json").1 ⟨"JSONDecodeError", "Expecting value"⟩ rfl

/-- C7: evaluation of the not-initialized guard of `wrapper_fn` (mcp.py
lines 298-301).  With a present aggregator whose `initialized` is false,
the wrapper raises the NotInitialized `RuntimeError` and the result is the
same for every remote-call function — `call_tool` is never invoked.  With
an *absent* (None) aggregator, however, the guard fires but evaluating the
error message's f-string dereferences `server_aggregator.agent_name` on
`None`, so the invocation raises `AttributeError` — not the NotInitialized
`RuntimeError` the claim states — still before any remote call. -/
theorem wrapper_fn_not_initialized_behavior :
    (∀ ct (name : String) (args : List (String × Json)) (agent : String),
      wrapper_fn (some ⟨false, agent⟩) ct name args =
        Except.error ⟨"RuntimeError",
          "MCP aggregator not initialized for agent " ++ agent⟩) ∧
    (∀ ct (name : String) (args : List (String × Json)),
      wrapper_fn none ct name args =
        Except.error ⟨"AttributeError",
          "\x27NoneType\x27 object has no attribute \x27agent_name\x27"⟩) ∧
    "AttributeError" ≠ "RuntimeError" := by
  refine ⟨?_, ?_, by decide⟩
  · intro ct name args agent
    rfl
  · intro ct name args
    rfl

/-- C8: closure isolation.  Wrapping two descriptors `A` and `B` against
the same aggregator and invoking `B`'s closure in an environment whose
remote call reports back the tool name it received, the invocation result
is exactly `B.name`: the closure calls the remote tool under its own
captured name, and when the names differ the result is never `A.name`. -/
theorem closure_isolation_distinct_tools
    (A B : MCPToolDesc) (ftB : FunctionTool) (dB : MCPToolDesc)
    (hB : mcp_tool_to_function_tool B = (some ftB, dB)) :
    ftB.on_invoke_tool probeEnv "\x7b\x7d" = B.name ∧
    (A.name ≠ B.name → ftB.on_invoke_tool probeEnv "\x7b\x7d" ≠ A.name) := by
  have heval : ftB.on_invoke_tool probeEnv "\x7b\x7d" = B.name := by
    rw [mcp_tool_to_function_tool_on_invoke hB]
    rfl
  refine ⟨heval, ?_⟩
  intro hne
  rw [heval]
  exact fun hcontra => hne hcontra.symm

theorem closure_isolation_distinct_tools_witness :
    ftBeta.on_invoke_tool probeEnv "\x7b\x7d" = "beta" ∧
    ftBeta.on_invoke_tool probeEnv "\x7b\x7d" ≠ "alpha" := by
  have h := closure_isolation_distinct_tools toolAlpha toolBeta ftBeta
    toolBeta ftBeta_wrap
  exact ⟨h.1, h.2 (by decide)⟩

/-- C9: `create_mcp_aggregator` with an empty server list fails fast with
the NoServersSpecified `RuntimeError`; the `Except.error` result carries no
aggregator, and in the source the raise precedes the construction of any
`Context` or `MCPAggregator` object. -/
theorem create_mcp_aggregator_empty_servers
    (run_context : RunContext) (name : String)
    (server_registry? : Option ServerRegistry)
    (connection_persistence : Bool) :
    create_mcp_aggregator run_context name [] server_registry?
      connection_persistence =
      Except.error ⟨"RuntimeError",
        "No MCP servers specified. No MCP aggregator created."⟩ := by
  rfl

/-- C10: for a descriptor that carries an input schema, wrapping mutates
that schema in place — afterwards the caller's descriptor holds the very
dict with `additionalProperties == False` set — while the schema stored in
the produced tool is the separately built output of the sanitizer applied
to the mutated dict. -/
theorem mcp_tool_to_function_tool_mutates_schema
    (tool : MCPToolDesc) (s : List (String × Json))
    (hs : tool.inputSchema? = some s) :
    (mcp_tool_to_function_tool tool).2.inputSchema? =
      some (dictSet s "additionalProperties" (Json.bool false)) ∧
    dictLookup (dictSet s "additionalProperties" (Json.bool false))
      "additionalProperties" = some (Json.bool false) ∧
    (∀ ft dt, mcp_tool_to_function_tool tool = (some ft, dt) →
      sanitize_json_schema_for_openai
        (Json.obj (dictSet s "additionalProperties" (Json.bool false))) =
        some ft.params_json_schema) := by
  have hmut : mutated_params tool =
      dictSet s "additionalProperties" (Json.bool false) := by
    unfold mutated_params effective_params0
    rw [hs]
  refine ⟨?_, ?_, ?_⟩
  · rw [mcp_tool_to_function_tool_snd]
    unfold mutated_tool
    rw [hs]
    simp only
    rw [← hmut]
  · exact dictLookup_set_eq s "additionalProperties" (Json.bool false)
  · intro ft dt hw
    rw [← hmut]
    exact mcp_tool_to_function_tool_schema hw

theorem mcp_tool_to_function_tool_mutates_schema_witness :
    (mcp_tool_to_function_tool toolAlpha).2.inputSchema? =
      some (dictSet alphaSchema "additionalProperties" (Json.bool false)) ∧
    dictLookup (dictSet alphaSchema "additionalProperties" (Json.bool false))
      "additionalProperties" = some (Json.bool false) ∧
    (∀ ft dt, mcp_tool_to_function_tool toolAlpha = (some ft, dt) →
      sanitize_json_schema_for_openai
        (Json.obj (dictSet alphaSchema "additionalProperties"
          (Json.bool false))) = some ft.params_json_schema) :=
  mcp_tool_to_function_tool_mutates_schema toolAlpha alphaSchema rfl
